import Mathlib

/-!
A shallow embedding of the ELIZA chatbot in `src/ELIZA/main.py`, together with
proofs about its rule table, matching, reflection, formatting and fallback
behaviour.

Modelling choices, all taken from the source:
* Strings are `List Char`.
* `str.lower()` is modelled per character on the ASCII letter range
  (`lowerChar`), which is exact for the ASCII rule table and inputs the
  program works with; likewise `re.IGNORECASE` is modelled by comparing the
  lowercased input against the (already lowercase) pattern.
* `str.split()` splits on runs of ASCII whitespace and discards empty pieces
  (`pyWords`); `" ".join` is `joinSp`.
* Every pattern in the table has one of three shapes: a bare literal
  (`yes`, `no`), a literal followed by `(.*)`, or a literal, `(.*)`, then a
  literal (`i (.*) you`).  `Pat` captures exactly these shapes and `matchPat`
  gives them `re.match` semantics: anchored at position 0, the match need not
  consume the whole line, `.*` is greedy and does not cross a newline, and
  the captured group is taken from the original (uncased) input.
* `str.format` with positional `{}` placeholders is `pyFormat`; it returns
  `none` where Python raises (a placeholder with no argument, or a stray
  brace — no template of the table uses `{{`/`}}` escapes).  Extra arguments
  are ignored, as in Python.
* `random.choice(l)` is modelled by `choice l n` for an arbitrary draw
  `n : Nat`, picking `l[n % len(l)]`.
-/

namespace Eliza

/-- The characters of a string literal. -/
def S (s : String) : List Char := s.data

/-- The ASCII apostrophe character. -/
def apoC : Char := Char.ofNat 39

/-- One character of Python `str.lower()` on the ASCII range: `A`–`Z` maps to
`a`–`z`, everything else is unchanged. -/
def lowerChar (c : Char) : Char :=
  if 65 ≤ c.toNat ∧ c.toNat ≤ 90 then Char.ofNat (c.toNat + 32) else c

/-- Python `str.lower()` of a whole string. -/
def lowStr (s : List Char) : List Char := s.map lowerChar

/-- Python `str.split()` whitespace test (ASCII whitespace characters). -/
def isSpace (c : Char) : Bool :=
  c.toNat = 32 || c.toNat = 9 || c.toNat = 10 || c.toNat = 13 ||
    c.toNat = 11 || c.toNat = 12

/-- Python `str.split()`: split on runs of whitespace, discarding empty
pieces. -/
def pyWords : List Char → List (List Char)
  | [] => []
  | c :: cs =>
      if isSpace c then pyWords cs
      else
        match cs, pyWords cs with
        | [], _ => [[c]]
        | d :: _, ws =>
          if isSpace d then [c] :: ws
          else
            match ws with
            | [] => [[c]]
            | w :: ws' => (c :: w) :: ws'

/-- Python `" ".join`. -/
def joinSp : List (List Char) → List Char
  | [] => []
  | [w] => w
  | w :: ws => w ++ ' ' :: joinSp ws

/-- The `reflections` dictionary of the source, as an association list in
declaration order (the keys are pairwise distinct, so order is irrelevant to
lookup). -/
def reflections : List (List Char × List Char) :=
  [ (S "i am", S "you are"),
    (['i', apoC, 'm'], S "you are"),
    (S "i have", S "you have"),
    (S "i was", S "you were"),
    (S "i", S "you"),
    (S "me", S "you"),
    (S "my", S "your"),
    (S "you are", S "I am"),
    (S "you have", S "I have"),
    (S "you were", S "I was") ]

/-- Association-list lookup, modelling `dict.get` (keys distinct). -/
def lookupTable : List (List Char × List Char) → List Char → Option (List Char)
  | [], _ => none
  | (k, v) :: rest, w => if w = k then some v else lookupTable rest w

/-- One token of `reflect`: `reflections.get(word, word)`. -/
def reflectWord (w : List Char) : List Char :=
  (lookupTable reflections w).getD w

/-- The `reflect` function of the source:
`" ".join(reflections.get(word, word) for word in sentence.lower().split())`. -/
def reflect (sentence : List Char) : List Char :=
  joinSp ((pyWords (lowStr sentence)).map reflectWord)

/-- The three pattern shapes occurring in the rule table: a bare literal, a
literal followed by `(.*)`, and a literal, `(.*)`, then a trailing
literal. -/
inductive Pat where
  | lit (p : List Char) : Pat
  | litStar (p : List Char) : Pat
  | litStarLit (p suf : List Char) : Pat
deriving DecidableEq

/-- Boolean "is a list prefix of": `isPref p t` iff `t` starts with `p`. -/
def isPref : List Char → List Char → Bool
  | [], _ => true
  | _ :: _, [] => false
  | a :: as, b :: bs => a == b && isPref as bs

/-- Greedy choice of the split point for `lit (.*) suf`: the largest `k` such
that the first `k` characters after the literal contain no newline (`.` does
not match `\n`) and `suf` matches right after them.  `none` when no such `k`
exists, i.e. the regex fails. -/
def greedyK (suf rest : List Char) : Option Nat :=
  (List.range (rest.length + 1)).reverse.find?
    (fun k => (rest.take k).all (fun c => c != '\n') && isPref suf (rest.drop k))

/-- `re.match(pattern, s, re.IGNORECASE)` for the three pattern shapes:
anchored at position 0, partial (trailing text ignored), case-insensitive,
greedy `(.*)` not crossing a newline; returns the list of captured groups,
taken from the original input. -/
def matchPat : Pat → List Char → Option (List (List Char))
  | Pat.lit p, s => if isPref p (lowStr s) then some [] else none
  | Pat.litStar p, s =>
      if isPref p (lowStr s) then
        some [(s.drop p.length).takeWhile (fun c => c != '\n')]
      else none
  | Pat.litStarLit p suf, s =>
      if isPref p (lowStr s) then
        match greedyK suf ((lowStr s).drop p.length) with
        | some k => some [(s.drop p.length).take k]
        | none => none
      else none

/-- The `responses` dictionary of the source, in declaration (= iteration)
order: each pattern with its list of reply templates. -/
def responses : List (Pat × List (List Char)) :=
  [ (Pat.litStar (S "i feel "),
      [S "Why do you feel {}?", S "How long have you felt {}?",
       S "Do you think feeling {} is normal?"]),
    (Pat.litStar (S "why do you "),
      [S "Why does it concern you that I {}?", S "What makes you ask that?"]),
    (Pat.litStar (['i', apoC, 'm', ' ']),
      [S "How does being {} make you feel?", S "Do you enjoy being {}?"]),
    (Pat.litStarLit (S "i ") (S " you"),
      [S "Why do you {} me?", S "What makes you think you {} me?"]),
    (Pat.litStar (S "because "),
      [S "Is that the real reason?", S "What other reasons might there be?",
       S "Does that reason explain everything?"]),
    (Pat.lit (S "yes"), [S "You seem quite sure.", S "I understand."]),
    (Pat.lit (S "no"), [S "Why not?", S "Can you explain why?"]),
    (Pat.litStar (S "you are "),
      [S "What makes you think I am {}?",
       S "Does it please you to think that I am {}?"]),
    (Pat.litStar (S "i want "),
      [S "Why do you want {}?", S "What would it mean if you got {}?"]),
    (Pat.litStar (S "can you "),
      [S "Why do you ask?", S "Perhaps you believe I can {}?"]) ]

/-- The `default_responses` list of the source. -/
def default_responses : List (List Char) :=
  [ S "Tell me more.",
    S "Why do you say that?",
    S "How does that make you feel?",
    S "Can you elaborate?",
    S "That is very interesting." ]

/-- `random.choice(l)`, with the random draw made explicit: an arbitrary
`n : Nat` selects element `n % l.length`. -/
def choice (l : List (List Char)) (n : Nat) : List Char :=
  l.getD (n % l.length) []

/-- Python `str.format` restricted to positional `{}` placeholders, the only
kind used by the table.  `none` models the exceptions Python raises: a
placeholder with no remaining argument (IndexError) or a stray brace
(ValueError).  Arguments left over after the last placeholder are ignored,
as in Python. -/
def pyFormat : List Char → List (List Char) → Option (List Char)
  | [], _ => some []
  | '{' :: '}' :: rest, [] => none
  | '{' :: '}' :: rest, a :: args => (pyFormat rest args).map (fun r => a ++ r)
  | '{' :: _, _ => none
  | '}' :: _, _ => none
  | c :: rest, args => (pyFormat rest args).map (fun r => c :: r)

/-- The `for pattern, phrases in responses.items()` loop: the first rule whose
pattern matches, together with its captured groups. -/
def firstMatch : List (Pat × List (List Char)) → List Char →
    Option (List (List Char) × List (List Char))
  | [], _ => none
  | (p, phrases) :: rest, s =>
      match matchPat p s with
      | some gs => some (phrases, gs)
      | none => firstMatch rest s

/-- One reply of the chatbot for input `s` and random draw `n`: the body of
the `while` loop after the sentinel check, i.e.
`random.choice(phrases).format(*[reflect(g) for g in match.groups()])` for
the first matching rule, or `random.choice(default_responses)` when no rule
matches. -/
def respond (s : List Char) (n : Nat) : Option (List Char) :=
  match firstMatch responses s with
  | some (phrases, gs) => pyFormat (choice phrases n) (gs.map reflect)
  | none => some (choice default_responses n)

/-- The exit sentinels `["bye", "exit", "quit"]`. -/
def sentinels : List (List Char) :=
  [S "bye", S "exit", S "quit"]

/-- The observable outcome of one loop iteration: the session ends, or a
reply is printed. -/
inductive Turn where
  | exit : Turn
  | reply : List Char → Turn
deriving DecidableEq

/-- One iteration of the `while True` loop of `eliza_chat` on input line `s`
with random draw `n`: if the lowercased line is a sentinel the loop breaks
without consulting the rule table, otherwise the reply computed by `respond`
is printed. -/
def elizaStep (s : List Char) (n : Nat) : Option Turn :=
  if lowStr s ∈ sentinels then some Turn.exit
  else (respond s n).map Turn.reply

/-- Number of capture groups of a pattern. -/
def numCaptures : Pat → Nat
  | Pat.lit _ => 0
  | Pat.litStar _ => 1
  | Pat.litStarLit _ _ => 1

/-- Number of positional `{}` placeholders in a template. -/
def countPh : List Char → Nat
  | '{' :: '}' :: rest => countPh rest + 1
  | _ :: rest => countPh rest
  | [] => 0

/-- A template is well braced when every `{` is immediately followed by `}`
and every `}` immediately follows a `{`; all templates of the table are. -/
def wellBraced : List Char → Bool
  | [] => true
  | '{' :: '}' :: rest => wellBraced rest
  | '{' :: _ => false
  | '}' :: _ => false
  | _ :: rest => wellBraced rest

/-- The sub-table of `reflections` whose keys are single tokens (contain no
whitespace); the multi-word keys can never be matched by `reflect`. -/
def reflectionsSingle : List (List Char × List Char) :=
  [ (['i', apoC, 'm'], S "you are"),
    (S "i", S "you"),
    (S "me", S "you"),
    (S "my", S "your") ]

/-- Token lookup against the single-token sub-table only. -/
def reflectWordSingle (w : List Char) : List Char :=
  (lookupTable reflectionsSingle w).getD w

/-! ### Basic character lemmas -/

theorem toNat_ofNat_valid (n : Nat) (h : n < 55296) : (Char.ofNat n).toNat = n := by
  have hv : n.isValidChar := Or.inl h
  simp [Char.ofNat, dif_pos hv, Char.ofNatAux, Char.toNat, UInt32.toNat]

theorem toNat_lt (c : Char) : c.toNat < 1114112 := by
  rcases c.valid with h | h
  · exact Nat.lt_trans h (by decide)
  · exact h.2

theorem lowerChar_idem (c : Char) : lowerChar (lowerChar c) = lowerChar c := by
  unfold lowerChar
  split
  · rename_i h
    rw [toNat_ofNat_valid (c.toNat + 32) (by omega), if_neg (by omega)]
  · rfl

theorem lowStr_idem (s : List Char) : lowStr (lowStr s) = lowStr s := by
  simp [lowStr, Function.comp_def, lowerChar_idem]

/-- Lowering does not change whether a character is whitespace. -/
theorem isSpace_lowerChar (c : Char) : isSpace (lowerChar c) = isSpace c := by
  unfold lowerChar
  split
  · rename_i h
    have ht : (Char.ofNat (c.toNat + 32)).toNat = c.toNat + 32 :=
      toNat_ofNat_valid (c.toNat + 32) (by omega)
    have hA : isSpace (Char.ofNat (c.toNat + 32)) = false := by
      simp only [isSpace, ht, Bool.or_eq_false_iff, decide_eq_false_iff_not]
      omega
    have hB : isSpace c = false := by
      simp only [isSpace, Bool.or_eq_false_iff, decide_eq_false_iff_not]
      omega
    rw [hA, hB]
  · rfl

/-- Lowering cannot turn a character into a newline. -/
theorem lowerChar_eq_nl {c : Char} (h : lowerChar c = '\n') : c = '\n' := by
  unfold lowerChar at h
  split at h
  · rename_i hc
    have := congrArg Char.toNat h
    rw [toNat_ofNat_valid (c.toNat + 32) (by omega),
      show ('\n').toNat = 10 from rfl] at this
    omega
  · exact h

theorem lowerChar_space : lowerChar ' ' = ' ' := by decide

/-- A character of a lowered string is fixed by further lowering. -/
theorem lowStr_fixes {s : List Char} {c : Char} (h : c ∈ lowStr s) :
    lowerChar c = c := by
  rcases List.mem_map.mp h with ⟨d, _, rfl⟩
  exact lowerChar_idem d

/-! ### `isPref` -/

theorem isPref_iff (p t : List Char) : isPref p t = true ↔ ∃ r, t = p ++ r := by
  induction p generalizing t with
  | nil => simp [isPref]
  | cons a as ih =>
    cases t with
    | nil => simp [isPref]
    | cons b bs =>
      simp only [isPref, Bool.and_eq_true, beq_iff_eq, ih, List.cons_append,
        List.cons.injEq]
      constructor
      · rintro ⟨rfl, r, rfl⟩
        exact ⟨r, rfl, rfl⟩
      · rintro ⟨r, rfl, rfl⟩
        exact ⟨rfl, r, rfl⟩

theorem isPref_append_self (p r : List Char) : isPref p (p ++ r) = true :=
  (isPref_iff p (p ++ r)).mpr ⟨r, rfl⟩

/-! ### `choice` -/

theorem choice_mem (l : List (List Char)) (n : Nat) (h : l ≠ []) :
    choice l n ∈ l := by
  have hlt : n % l.length < l.length := Nat.mod_lt _ (by cases l <;> simp_all)
  rw [choice, List.getD_eq_getElem?_getD, List.getElem?_eq_getElem hlt]
  simp [List.getElem_mem]

/-! ### `pyFormat` -/

/-- Unfolding `pyFormat` on a non-brace character. -/
theorem pyFormat_cons_plain (c : Char) (rest : List Char) (args : List (List Char))
    (h1 : c ≠ '{') (h2 : c ≠ '}') :
    pyFormat (c :: rest) args = (pyFormat rest args).map (fun r => c :: r) := by
  rw [pyFormat.eq_def]
  split
  all_goals first | rfl | simp_all

/-- Unfolding `wellBraced` on a non-brace character. -/
theorem wellBraced_cons_plain (c : Char) (rest : List Char)
    (h1 : c ≠ '{') (h2 : c ≠ '}') : wellBraced (c :: rest) = wellBraced rest := by
  rw [wellBraced.eq_def]
  split
  all_goals first | rfl | simp_all

/-- Unfolding `countPh` on a character that is not `{`. -/
theorem countPh_cons_plain (c : Char) (rest : List Char)
    (h1 : c ≠ '{') : countPh (c :: rest) = countPh rest := by
  rw [countPh.eq_def]
  split
  all_goals first | rfl | simp_all

/-- A template without braces is returned verbatim by `format`, whatever the
arguments. -/
theorem pyFormat_braceless (t : List Char) (args : List (List Char))
    (h : ∀ c ∈ t, c ≠ '{' ∧ c ≠ '}') : pyFormat t args = some t := by
  induction t generalizing args with
  | nil => cases args <;> rfl
  | cons c rest ih =>
    rw [pyFormat_cons_plain c rest args (h c (by simp)).1 (h c (by simp)).2,
      ih args (fun d hd => h d (by simp [hd]))]
    rfl

/-- `format` succeeds whenever the template is well braced and has at most as
many placeholders as there are arguments (extra arguments are ignored). -/
theorem pyFormat_isSome (t : List Char) (args : List (List Char))
    (hb : wellBraced t = true) (hc : countPh t ≤ args.length) :
    ∃ r, pyFormat t args = some r := by
  induction t using wellBraced.induct generalizing args with
  | case1 => exact ⟨[], by cases args <;> rfl⟩
  | case2 rest ih =>
    cases args with
    | nil =>
      exact absurd (show countPh rest + 1 ≤ 0 from hc) (by omega)
    | cons a args =>
      have hb' : wellBraced rest = true := hb
      have hc' : countPh rest + 1 ≤ args.length + 1 := hc
      obtain ⟨r, hr⟩ := ih args hb' (by omega)
      refine ⟨a ++ r, ?_⟩
      rw [show pyFormat ('{' :: '}' :: rest) (a :: args) =
        (pyFormat rest args).map (fun r => a ++ r) from rfl, hr]
      rfl
  | case3 tail h1 =>
    exfalso
    rw [wellBraced.eq_def] at hb
    split at hb
    all_goals simp_all
    all_goals (rename_i heq; exact absurd heq.1.symm (by assumption))
  | case4 tail =>
    exact absurd (show false = true from hb) (by decide)
  | case5 c rest h1 h2 h3 ih =>
    have hcne : c ≠ '{' := fun hh => h2 hh
    have hcne' : c ≠ '}' := fun hh => h3 hh
    rw [wellBraced_cons_plain c rest hcne hcne'] at hb
    rw [countPh_cons_plain c rest hcne] at hc
    obtain ⟨r, hr⟩ := ih args hb hc
    refine ⟨c :: r, ?_⟩
    rw [pyFormat_cons_plain c rest args hcne hcne', hr]
    rfl

/-! ### `pyWords` and `joinSp` -/

theorem pyWords_cons_sp {c : Char} (cs : List Char) (h : isSpace c = true) :
    pyWords (c :: cs) = pyWords cs := by
  rw [pyWords.eq_def]
  simp [h]

theorem pyWords_cons_ns {c : Char} (cs : List Char) (h : isSpace c = false) :
    pyWords (c :: cs) =
      (c :: cs.takeWhile (fun d => !isSpace d)) ::
        pyWords (cs.dropWhile (fun d => !isSpace d)) := by
  induction cs generalizing c with
  | nil => rw [pyWords.eq_def]; simp [h, pyWords]
  | cons d cs ih =>
    by_cases hd : isSpace d
    · rw [pyWords.eq_def]
      simp only [h, Bool.false_eq_true, if_false, hd, if_true]
      simp [List.takeWhile_cons, List.dropWhile_cons, hd, pyWords_cons_sp cs hd]
    · have hd' : isSpace d = false := by simp_all
      rw [pyWords.eq_def]
      simp only [h, Bool.false_eq_true, if_false, hd, if_false]
      rw [ih hd']
      simp [List.takeWhile_cons, List.dropWhile_cons, hd']

theorem pyWords_cons_cons_sp {c d : Char} (cs : List Char)
    (h : isSpace c = false) (hd : isSpace d = true) :
    pyWords (c :: d :: cs) = [c] :: pyWords (d :: cs) := by
  rw [pyWords_cons_ns _ h]
  simp [List.takeWhile_cons, List.dropWhile_cons, hd]

theorem pyWords_ne_nil {c : Char} (cs : List Char) (h : isSpace c = false) :
    pyWords (c :: cs) ≠ [] := by
  rw [pyWords_cons_ns _ h]
  simp

theorem pyWords_cons_cons_ns {c d : Char} {cs w : List Char}
    {ws : List (List Char)} (h : isSpace c = false) (hd : isSpace d = false)
    (hws : pyWords (d :: cs) = w :: ws) :
    pyWords (c :: d :: cs) = (c :: w) :: ws := by
  rw [pyWords_cons_ns _ h]
  rw [pyWords_cons_ns _ hd] at hws
  rw [List.takeWhile_cons, List.dropWhile_cons]
  simp only [hd, Bool.not_false, if_true]
  injection hws with h1 h2
  rw [← h1] at *
  simp_all

theorem pyWords_append_sp (a b : List Char) :
    pyWords (a ++ ' ' :: b) = pyWords a ++ pyWords b := by
  induction a with
  | nil =>
    rw [List.nil_append, pyWords_cons_sp _ (by decide)]
    rfl
  | cons c a ih =>
    by_cases hc : isSpace c
    · rw [List.cons_append, pyWords_cons_sp _ hc, pyWords_cons_sp _ hc, ih]
    · have hc' : isSpace c = false := by simp_all
      cases a with
      | nil =>
        rw [List.nil_append] at ih
        rw [List.cons_append, List.nil_append,
          pyWords_cons_cons_sp _ hc' (by decide), pyWords_cons_sp _ (by decide)]
        rw [pyWords_cons_ns _ hc']
        rfl
      | cons d a' =>
        by_cases hd : isSpace d
        · rw [List.cons_append, List.cons_append,
            pyWords_cons_cons_sp _ hc' hd]
          rw [List.cons_append] at ih
          rw [ih, pyWords_cons_cons_sp _ hc' hd]
          rfl
        · have hd' : isSpace d = false := by simp_all
          rcases hw : pyWords (d :: a') with _ | ⟨w, ws⟩
          · exact absurd hw (pyWords_ne_nil _ hd')
          · have ih' : pyWords (d :: (a' ++ ' ' :: b)) = w :: (ws ++ pyWords b) := by
              rw [show d :: (a' ++ ' ' :: b) = (d :: a') ++ ' ' :: b from rfl, ih, hw]
              rfl
            rw [List.cons_append, List.cons_append,
              pyWords_cons_cons_ns hc' hd' ih', pyWords_cons_cons_ns hc' hd' hw]
            rfl

theorem joinSp_cons_cons (w x : List Char) (ts : List (List Char)) :
    joinSp (w :: x :: ts) = w ++ ' ' :: joinSp (x :: ts) := by
  rfl

theorem mem_takeWhile_mem {p : Char → Bool} {l : List Char} {a : Char}
    (h : a ∈ l.takeWhile p) : a ∈ l := by
  induction l with
  | nil => simp_all
  | cons c cs ih =>
    rw [List.takeWhile_cons] at h
    split at h
    · rcases List.mem_cons.mp h with rfl | h
      · simp
      · simp [ih h]
    · simp_all

theorem mem_takeWhile_pred {p : Char → Bool} {l : List Char} {a : Char}
    (h : a ∈ l.takeWhile p) : p a = true := by
  induction l with
  | nil => simp_all
  | cons c cs ih =>
    rw [List.takeWhile_cons] at h
    split at h
    · rcases List.mem_cons.mp h with rfl | h
      · assumption
      · exact ih h
    · simp_all

theorem mem_dropWhile_mem {p : Char → Bool} {l : List Char} {a : Char}
    (h : a ∈ l.dropWhile p) : a ∈ l := by
  induction l with
  | nil => simp_all
  | cons c cs ih =>
    rw [List.dropWhile_cons] at h
    split at h
    · simp [ih h]
    · exact h

theorem mem_pyWords_dropWhile (cs : List Char) :
    ∀ x ∈ pyWords (cs.dropWhile (fun d => !isSpace d)), x ∈ pyWords cs := by
  cases cs with
  | nil => simp [pyWords]
  | cons d cs' =>
    by_cases hd : isSpace d
    · rw [List.dropWhile_cons]
      simp only [hd, Bool.not_true, Bool.false_eq_true, if_false]
      exact fun x hx => hx
    · have hd' : isSpace d = false := by simp_all
      rw [List.dropWhile_cons]
      simp only [hd', Bool.not_false, if_true]
      rw [pyWords_cons_ns _ hd']
      exact fun x hx => List.mem_cons_of_mem _ hx

theorem pyWords_sound (l : List Char) :
    ∀ w ∈ pyWords l, w ≠ [] ∧ ∀ c ∈ w, isSpace c = false ∧ c ∈ l := by
  induction l with
  | nil => simp [pyWords]
  | cons c cs ih =>
    by_cases hc : isSpace c
    · rw [pyWords_cons_sp _ hc]
      intro w hw
      obtain ⟨h1, h2⟩ := ih w hw
      exact ⟨h1, fun d hd => ⟨(h2 d hd).1, by simp [(h2 d hd).2]⟩⟩
    · have hc' : isSpace c = false := by simp_all
      rw [pyWords_cons_ns _ hc']
      intro w hw
      rcases List.mem_cons.mp hw with rfl | hw
      · refine ⟨by simp, fun d hd => ?_⟩
        rcases List.mem_cons.mp hd with rfl | hd
        · exact ⟨hc', by simp⟩
        · refine ⟨?_, ?_⟩
          · have := mem_takeWhile_pred hd
            simp_all
          · simp [mem_takeWhile_mem hd]
      · obtain ⟨h1, h2⟩ := ih w (mem_pyWords_dropWhile cs w hw)
        exact ⟨h1, fun d hd => ⟨(h2 d hd).1, by simp [(h2 d hd).2]⟩⟩

theorem pyWords_spacefree {w : List Char} (hne : w ≠ [])
    (h : ∀ c ∈ w, isSpace c = false) : pyWords w = [w] := by
  obtain ⟨c, cs, rfl⟩ := List.exists_cons_of_ne_nil hne
  rw [pyWords_cons_ns _ (h c (by simp))]
  have htw : cs.takeWhile (fun d => !isSpace d) = cs :=
    List.takeWhile_eq_self_iff.mpr (fun a ha => by simp [h a (by simp [ha])])
  have hdw : cs.dropWhile (fun d => !isSpace d) = [] :=
    List.dropWhile_eq_nil_iff.mpr (fun a ha => by simp [h a (by simp [ha])])
  rw [htw, hdw]
  rfl

theorem pyWords_joinSp (ts : List (List Char)) :
    pyWords (joinSp ts) = (ts.map pyWords).flatten := by
  induction ts with
  | nil => simp [joinSp, pyWords]
  | cons t ts ih =>
    cases ts with
    | nil => simp [joinSp]
    | cons x ts' =>
      rw [joinSp_cons_cons, pyWords_append_sp, ih]
      simp

theorem joinSp_append (a b : List (List Char)) (ha : a ≠ []) (hb : b ≠ []) :
    joinSp (a ++ b) = joinSp a ++ ' ' :: joinSp b := by
  induction a with
  | nil => simp_all
  | cons w a ih =>
    cases a with
    | nil =>
      obtain ⟨x, b', rfl⟩ := List.exists_cons_of_ne_nil hb
      rw [show joinSp [w] = w from rfl]
      rfl
    | cons w' a' =>
      have e1 : (w :: w' :: a') ++ b = w :: w' :: (a' ++ b) := rfl
      rw [e1, joinSp_cons_cons,
        show w' :: (a' ++ b) = (w' :: a') ++ b from rfl, ih (by simp),
        joinSp_cons_cons]
      simp

/-! ### `matchPat` and `firstMatch` -/

/-- A successful match yields exactly as many groups as the pattern has
capture groups. -/
theorem matchPat_length {p : Pat} {s : List Char} {gs : List (List Char)}
    (h : matchPat p s = some gs) : gs.length = numCaptures p := by
  cases p with
  | lit p =>
    rw [matchPat] at h
    split at h
    · cases h; rfl
    · cases h
  | litStar p =>
    rw [matchPat] at h
    split at h
    · cases h; rfl
    · cases h
  | litStarLit p suf =>
    rw [matchPat] at h
    split at h
    · split at h
      · cases h; rfl
      · cases h
    · cases h

theorem firstMatch_cons_some {p : Pat} {phr : List (List Char)}
    {rs : List (Pat × List (List Char))} {s : List Char} {gs : List (List Char)}
    (h : matchPat p s = some gs) :
    firstMatch ((p, phr) :: rs) s = some (phr, gs) := by
  rw [firstMatch, h]

theorem firstMatch_cons_none {p : Pat} {phr : List (List Char)}
    {rs : List (Pat × List (List Char))} {s : List Char}
    (h : matchPat p s = none) :
    firstMatch ((p, phr) :: rs) s = firstMatch rs s := by
  rw [firstMatch, h]

/-- Rules that all fail to match can be dropped from the front of the table. -/
theorem firstMatch_append_none {pre rs : List (Pat × List (List Char))}
    {s : List Char} (h : ∀ q ∈ pre, matchPat q.1 s = none) :
    firstMatch (pre ++ rs) s = firstMatch rs s := by
  induction pre with
  | nil => rfl
  | cons q pre ih =>
    obtain ⟨p, phr⟩ := q
    rw [List.cons_append, firstMatch_cons_none (h (p, phr) (by simp)),
      ih (fun q hq => h q (by simp [hq]))]

/-- A successful `firstMatch` comes from some rule of the table whose pattern
matched. -/
theorem firstMatch_mem {rs : List (Pat × List (List Char))} {s : List Char}
    {phr gs : List (List Char)} (h : firstMatch rs s = some (phr, gs)) :
    ∃ p, (p, phr) ∈ rs ∧ matchPat p s = some gs := by
  induction rs with
  | nil => cases h
  | cons q rs ih =>
    obtain ⟨p, phr'⟩ := q
    rw [firstMatch] at h
    split at h
    · rename_i gs' hm
      cases h
      exact ⟨p, by simp, hm⟩
    · obtain ⟨p', hmem, hm⟩ := ih h
      exact ⟨p', by simp [hmem], hm⟩

/-- When every rule fails, `firstMatch` fails. -/
theorem firstMatch_eq_none {rs : List (Pat × List (List Char))} {s : List Char}
    (h : ∀ q ∈ rs, matchPat q.1 s = none) : firstMatch rs s = none := by
  induction rs with
  | nil => rfl
  | cons q rs ih =>
    obtain ⟨p, phr⟩ := q
    rw [firstMatch_cons_none (h (p, phr) (by simp))]
    exact ih (fun q hq => h q (by simp [hq]))

/-! ### The reflection layer -/

theorem map_id_of_mem {α : Type} {f : α → α} {l : List α}
    (h : ∀ x ∈ l, f x = x) : l.map f = l := by
  induction l with
  | nil => rfl
  | cons a l ih => simp_all

theorem lowStr_joinSp (ts : List (List Char)) :
    lowStr (joinSp ts) = joinSp (ts.map lowStr) := by
  induction ts with
  | nil => rfl
  | cons t ts ih =>
    cases ts with
    | nil => rfl
    | cons x ts' =>
      have h1 : lowStr (t ++ ' ' :: joinSp (x :: ts')) =
          lowStr t ++ lowerChar ' ' :: lowStr (joinSp (x :: ts')) := by
        simp [lowStr]
      rw [joinSp_cons_cons, h1, lowerChar_space, ih]
      simp only [List.map_cons]
      rw [joinSp_cons_cons]

/-- Joining the tokenisations of a list of pieces gives the same string as
joining the pieces, provided each piece round-trips through `pyWords`. -/
theorem joinSp_flatten_pyWords (ts : List (List Char))
    (h : ∀ t ∈ ts, pyWords t ≠ [] ∧ joinSp (pyWords t) = t) :
    joinSp ((ts.map pyWords).flatten) = joinSp ts := by
  induction ts with
  | nil => rfl
  | cons t ts ih =>
    cases ts with
    | nil =>
      have hone : (List.map pyWords [t]).flatten = pyWords t := by simp
      rw [hone, (h t (by simp)).2]
      rfl
    | cons x ts' =>
      have hflat : (List.map pyWords (t :: x :: ts')).flatten =
          pyWords t ++ (List.map pyWords (x :: ts')).flatten := by simp
      have hne2 : (List.map pyWords (x :: ts')).flatten ≠ [] := by
        intro hh
        rw [List.map_cons, List.flatten_cons] at hh
        exact (h x (by simp)).1 (List.append_eq_nil.mp hh).1
      rw [hflat, joinSp_append _ _ (h t (by simp)).1 hne2, (h t (by simp)).2,
        ih (fun u hu => h u (by simp [List.mem_cons.mp hu])), joinSp_cons_cons]

/-- On whitespace-free tokens — the only arguments `reflect` ever feeds it —
the full table lookup agrees with the single-token sub-table: the multi-word
keys of `reflections` are dead entries. -/
theorem reflectWord_eq_single {w : List Char} (h : ∀ c ∈ w, isSpace c = false) :
    reflectWord w = reflectWordSingle w := by
  have n1 : w ≠ S "i am" := fun he =>
    absurd (h ' ' (by rw [he]; decide)) (by decide)
  have n3 : w ≠ S "i have" := fun he =>
    absurd (h ' ' (by rw [he]; decide)) (by decide)
  have n4 : w ≠ S "i was" := fun he =>
    absurd (h ' ' (by rw [he]; decide)) (by decide)
  have n8 : w ≠ S "you are" := fun he =>
    absurd (h ' ' (by rw [he]; decide)) (by decide)
  have n9 : w ≠ S "you have" := fun he =>
    absurd (h ' ' (by rw [he]; decide)) (by decide)
  have n10 : w ≠ S "you were" := fun he =>
    absurd (h ' ' (by rw [he]; decide)) (by decide)
  simp only [reflectWord, reflectWordSingle, reflections, reflectionsSingle,
    lookupTable, if_neg n1, if_neg n3, if_neg n4, if_neg n8, if_neg n9,
    if_neg n10]

/-- The values reachable through the single-token sub-table. -/
theorem lookupSingle_values {w v : List Char}
    (hlk : lookupTable reflectionsSingle w = some v) :
    v = S "you are" ∨ v = S "you" ∨ v = S "your" := by
  simp only [reflectionsSingle, lookupTable] at hlk
  split at hlk
  · exact Or.inl (by cases hlk; rfl)
  · split at hlk
    · exact Or.inr (Or.inl (by cases hlk; rfl))
    · split at hlk
      · exact Or.inr (Or.inl (by cases hlk; rfl))
      · split at hlk
        · exact Or.inr (Or.inr (by cases hlk; rfl))
        · cases hlk

/-- Package of facts about the image of one token under `reflectWord`: it is
already lowercase, it re-tokenises without loss, and all of its tokens are
fixed points of `reflectWord`. -/
theorem reflectWord_good {w : List Char} (hne : w ≠ [])
    (hsf : ∀ c ∈ w, isSpace c = false) (hlow : ∀ c ∈ w, lowerChar c = c) :
    lowStr (reflectWord w) = reflectWord w ∧
    pyWords (reflectWord w) ≠ [] ∧
    joinSp (pyWords (reflectWord w)) = reflectWord w ∧
    (∀ u ∈ pyWords (reflectWord w), reflectWord u = u) := by
  rw [reflectWord_eq_single hsf]
  unfold reflectWordSingle
  rcases hlk : lookupTable reflectionsSingle w with _ | v
  · simp only [Option.getD_none]
    have hpw : pyWords w = [w] := pyWords_spacefree hne hsf
    refine ⟨map_id_of_mem hlow, by simp [hpw], by rw [hpw]; rfl, ?_⟩
    intro u hu
    rw [hpw] at hu
    have hu' : u = w := by simpa using hu
    subst hu'
    rw [reflectWord_eq_single hsf]
    unfold reflectWordSingle
    rw [hlk]
    rfl
  · simp only [Option.getD_some]
    rcases lookupSingle_values hlk with rfl | rfl | rfl
    · refine ⟨by decide, by decide, by decide, ?_⟩
      intro u hu
      have hpw : pyWords (S "you are") = [S "you", S "are"] := by decide
      rw [hpw] at hu
      have : u = S "you" ∨ u = S "are" := by simpa using hu
      rcases this with rfl | rfl <;> decide
    · refine ⟨by decide, by decide, by decide, ?_⟩
      intro u hu
      have hpw : pyWords (S "you") = [S "you"] := by decide
      rw [hpw] at hu
      have : u = S "you" := by simpa using hu
      subst this
      decide
    · refine ⟨by decide, by decide, by decide, ?_⟩
      intro u hu
      have hpw : pyWords (S "your") = [S "your"] := by decide
      rw [hpw] at hu
      have : u = S "your" := by simpa using hu
      subst this
      decide

/-- `respond` after a successful `firstMatch`. -/
theorem respond_of_firstMatch {s : List Char} {n : Nat}
    {phr gs : List (List Char)}
    (hfm : firstMatch responses s = some (phr, gs)) :
    respond s n = pyFormat (choice phr n) (gs.map reflect) := by
  unfold respond
  rw [hfm]

/-- `respond` on a two-template rule is one of two formatted templates. -/
theorem respond_cases2 {s : List Char} {t1 t2 : List Char}
    {gs : List (List Char)} {n : Nat}
    (hfm : firstMatch responses s = some ([t1, t2], gs)) :
    respond s n = pyFormat t1 (gs.map reflect) ∨
    respond s n = pyFormat t2 (gs.map reflect) := by
  rw [respond_of_firstMatch hfm]
  have h2 : n % 2 = 0 ∨ n % 2 = 1 := by omega
  rcases h2 with h2 | h2
  · left
    simp [choice, h2]
  · right
    simp [choice, h2]

/-- `respond` on a three-template rule is one of three formatted templates. -/
theorem respond_cases3 {s : List Char} {t1 t2 t3 : List Char}
    {gs : List (List Char)} {n : Nat}
    (hfm : firstMatch responses s = some ([t1, t2, t3], gs)) :
    respond s n = pyFormat t1 (gs.map reflect) ∨
    respond s n = pyFormat t2 (gs.map reflect) ∨
    respond s n = pyFormat t3 (gs.map reflect) := by
  rw [respond_of_firstMatch hfm]
  have h3 : n % 3 = 0 ∨ n % 3 = 1 ∨ n % 3 = 2 := by omega
  rcases h3 with h3 | h3 | h3
  · left
    simp [choice, h3]
  · right; left
    simp [choice, h3]
  · right; right
    simp [choice, h3]

/-! ## Claim theorems -/

/-- C6: `reflect` lowercases its input, splits it on whitespace, replaces
each token that is an exact key of the reflection table by its value, keeps
all other tokens, and joins with single spaces; the lookup is single-token
only, so the multi-word keys of the table never trigger — equivalently, the
lookup may be restricted to the whitespace-free keys without changing the
result.  In particular `reflect "i" = "you"`, `reflect "my" = "your"`, and
`reflect "i am" = "you am"` (not `"you are"`). -/
theorem reflect_single_token_lookup :
    reflect (S "i") = S "you" ∧ reflect (S "my") = S "your" ∧
    reflect (S "i am") = S "you am" ∧
    ∀ s, reflect s = joinSp ((pyWords (lowStr s)).map reflectWordSingle) := by
  refine ⟨by decide, by decide, by decide, fun s => ?_⟩
  rw [reflect]
  congr 1
  apply List.map_congr_left
  intro w hw
  exact reflectWord_eq_single
    (fun c hc => ((pyWords_sound (lowStr s) w hw).2 c hc).1)

/-- C10: `reflect` is idempotent — every reachable replacement value splits
into tokens that are not themselves keys of the table, and the output of
`reflect` is already lowercase, so a second pass changes nothing. -/
theorem reflect_idempotent : ∀ s : List Char, reflect (reflect s) = reflect s := by
  intro s
  have hfacts : ∀ w ∈ pyWords (lowStr s),
      lowStr (reflectWord w) = reflectWord w ∧
      pyWords (reflectWord w) ≠ [] ∧
      joinSp (pyWords (reflectWord w)) = reflectWord w ∧
      ∀ u ∈ pyWords (reflectWord w), reflectWord u = u := by
    intro w hw
    obtain ⟨hne, hprops⟩ := pyWords_sound (lowStr s) w hw
    exact reflectWord_good hne (fun c hc => (hprops c hc).1)
      (fun c hc => lowStr_fixes (hprops c hc).2)
  have hA : lowStr (reflect s) =
      joinSp ((pyWords (lowStr s)).map reflectWord) := by
    rw [reflect, lowStr_joinSp, List.map_map]
    congr 1
    exact List.map_congr_left (fun w hw => (hfacts w hw).1)
  have hB : reflect (reflect s) =
      joinSp ((pyWords (joinSp ((pyWords (lowStr s)).map reflectWord))).map
        reflectWord) := by
    rw [reflect, hA]
  rw [hB, pyWords_joinSp, List.map_map]
  have hC : ((((pyWords (lowStr s)).map (pyWords ∘ reflectWord))).flatten).map
      reflectWord = (((pyWords (lowStr s)).map (pyWords ∘ reflectWord))).flatten := by
    apply map_id_of_mem
    intro u hu
    rw [List.mem_flatten] at hu
    obtain ⟨l, hl, hu⟩ := hu
    rw [List.mem_map] at hl
    obtain ⟨w, hw, rfl⟩ := hl
    exact (hfacts w hw).2.2.2 u hu
  rw [hC]
  have hD : ((pyWords (lowStr s)).map (pyWords ∘ reflectWord)) =
      (((pyWords (lowStr s)).map reflectWord).map pyWords) := by
    rw [List.map_map]
  rw [hD, joinSp_flatten_pyWords]
  · rw [reflect]
  · intro t ht
    rw [List.mem_map] at ht
    obtain ⟨w, hw, rfl⟩ := ht
    exact ⟨(hfacts w hw).2.1, (hfacts w hw).2.2.1⟩

/-- C1 (counterexample): the rule table does not satisfy
"placeholder count = capture count" for every template — the rule
`because (.*)` has one capture group while its templates have no
placeholder at all, so the mismatch occurs (and is silently tolerated by
`format`, which ignores extra arguments). -/
theorem template_placeholders_ne_captures :
    ¬ ∀ pr ∈ responses, ∀ t ∈ pr.2, countPh t = numCaptures pr.1 := by
  decide

/-- C1 (amended): every template of the table has at most as many `{}`
placeholders as its rule has capture groups (and contains no stray brace),
so template substitution never lacks an argument; but some templates of the
rules `because (.*)` and `can you (.*)` have fewer placeholders than
captures and silently drop the captured group. -/
theorem template_placeholders_le_captures :
    ∀ pr ∈ responses, ∀ t ∈ pr.2,
      countPh t ≤ numCaptures pr.1 ∧ wellBraced t = true := by
  decide

theorem template_placeholders_le_captures_witness :
    countPh (S "Why do you feel {}?") ≤ numCaptures (Pat.litStar (S "i feel ")) ∧
    wellBraced (S "Why do you feel {}?") = true :=
  template_placeholders_le_captures
    (Pat.litStar (S "i feel "),
      [S "Why do you feel {}?", S "How long have you felt {}?",
       S "Do you think feeling {} is normal?"]) (by decide)
    (S "Why do you feel {}?") (by decide)

/-- C2 (counterexample): the rules `"yes"`/`"no"` are NOT whole-line
literals — matching is `re.match`, i.e. prefix-anchored, so the input
`"yes please"` does match rule 6 and is answered from its templates. -/
theorem yes_please_matches_yes_rule :
    matchPat (Pat.lit (S "yes")) (S "yes please") = some [] ∧
    respond (S "yes please") 0 = some (S "You seem quite sure.") := by
  constructor
  · decide
  · decide

/-- C2 (amended): the rules `"yes"` (6) and `"no"` (7) are case-insensitive
PREFIX literals: an input matches them exactly when its lowercased form
starts with the literal; in particular both the exact input `"yes"` and the
input `"yes please"` match rule 6 and receive one of its two templates. -/
theorem yes_no_rules_are_prefix_literals :
    (∀ s : List Char,
      matchPat (Pat.lit (S "yes")) s = some [] ↔ ∃ r, lowStr s = S "yes" ++ r) ∧
    (∀ s : List Char,
      matchPat (Pat.lit (S "no")) s = some [] ↔ ∃ r, lowStr s = S "no" ++ r) ∧
    (∀ n, ∃ r, respond (S "yes") n = some r ∧
      r ∈ [S "You seem quite sure.", S "I understand."]) ∧
    (∀ n, ∃ r, respond (S "yes please") n = some r ∧
      r ∈ [S "You seem quite sure.", S "I understand."]) := by
  have hlit : ∀ p s : List Char,
      matchPat (Pat.lit p) s = some [] ↔ ∃ r, lowStr s = p ++ r := by
    intro p s
    rw [matchPat]
    by_cases h : isPref p (lowStr s) = true
    · rw [if_pos h]
      exact ⟨fun _ => (isPref_iff p (lowStr s)).mp h, fun _ => rfl⟩
    · rw [if_neg h]
      constructor
      · intro hc
        cases hc
      · intro ⟨r, hr⟩
        exact absurd ((isPref_iff p (lowStr s)).mpr ⟨r, hr⟩) h
  have hyes : ∀ n, ∃ r, respond (S "yes") n = some r ∧
      r ∈ [S "You seem quite sure.", S "I understand."] := by
    intro n
    rcases respond_cases2 (s := S "yes")
        (by decide : firstMatch responses (S "yes") =
          some ([S "You seem quite sure.", S "I understand."], [])) (n := n)
      with h | h
    · exact ⟨S "You seem quite sure.", by rw [h]; decide, by decide⟩
    · exact ⟨S "I understand.", by rw [h]; decide, by decide⟩
  have hyesp : ∀ n, ∃ r, respond (S "yes please") n = some r ∧
      r ∈ [S "You seem quite sure.", S "I understand."] := by
    intro n
    rcases respond_cases2 (s := S "yes please")
        (by decide : firstMatch responses (S "yes please") =
          some ([S "You seem quite sure.", S "I understand."], [])) (n := n)
      with h | h
    · exact ⟨S "You seem quite sure.", by rw [h]; decide, by decide⟩
    · exact ⟨S "I understand.", by rw [h]; decide, by decide⟩
  exact ⟨hlit (S "yes"), hlit (S "no"), hyes, hyesp⟩

/-- C3: because matching is prefix-anchored, the input `"yesterday"` (which
no earlier rule matches at position 0) matches rule 6 (`"yes"`), and
`respond` answers with one of that rule's two templates. -/
theorem yesterday_matches_yes_rule :
    matchPat (Pat.lit (S "yes")) (S "yesterday") = some [] ∧
    ∀ n, ∃ r, respond (S "yesterday") n = some r ∧
      r ∈ [S "You seem quite sure.", S "I understand."] := by
  refine ⟨by decide, fun n => ?_⟩
  rcases respond_cases2 (s := S "yesterday")
      (by decide : firstMatch responses (S "yesterday") =
        some ([S "You seem quite sure.", S "I understand."], [])) (n := n)
    with h | h
  · exact ⟨S "You seem quite sure.", by rw [h]; decide, by decide⟩
  · exact ⟨S "I understand.", by rw [h]; decide, by decide⟩

/-- C4: first match wins — whenever a rule of the table matches and every
rule before it fails, the reply is built from that rule's templates and
captured groups alone, regardless of later rules; e.g. `"why do you ask"`
is answered by rule 2 and `"i want you"` by rule 4 (`i (.*) you`), not by
rule 9 (`i want (.*)`). -/
theorem first_match_wins :
    (∀ (pre post : List (Pat × List (List Char))) (p : Pat)
        (phr : List (List Char)) (s : List Char) (n : Nat)
        (gs : List (List Char)),
      responses = pre ++ (p, phr) :: post →
      (∀ q ∈ pre, matchPat q.1 s = none) →
      matchPat p s = some gs →
      respond s n = pyFormat (choice phr n) (gs.map reflect)) ∧
    (∀ n, ∃ r, respond (S "why do you ask") n = some r ∧
      r ∈ [S "Why does it concern you that I ask?", S "What makes you ask that?"]) ∧
    (∀ n, ∃ r, respond (S "i want you") n = some r ∧
      r ∈ [S "Why do you want me?", S "What makes you think you want me?"]) := by
  refine ⟨?_, ?_, ?_⟩
  · intro pre post p phr s n gs heq hpre hm
    apply respond_of_firstMatch
    rw [heq, firstMatch_append_none hpre, firstMatch_cons_some hm]
  · intro n
    rcases respond_cases2 (s := S "why do you ask")
        (by decide : firstMatch responses (S "why do you ask") =
          some ([S "Why does it concern you that I {}?",
                 S "What makes you ask that?"], [S "ask"])) (n := n)
      with h | h
    · exact ⟨S "Why does it concern you that I ask?", by rw [h]; decide, by decide⟩
    · exact ⟨S "What makes you ask that?", by rw [h]; decide, by decide⟩
  · intro n
    rcases respond_cases2 (s := S "i want you")
        (by decide : firstMatch responses (S "i want you") =
          some ([S "Why do you {} me?", S "What makes you think you {} me?"],
                [S "want"])) (n := n)
      with h | h
    · exact ⟨S "Why do you want me?", by rw [h]; decide, by decide⟩
    · exact ⟨S "What makes you think you want me?", by rw [h]; decide, by decide⟩

theorem first_match_wins_witness :
    respond (S "i feel sad") 0 =
      pyFormat (choice [S "Why do you feel {}?", S "How long have you felt {}?",
        S "Do you think feeling {} is normal?"] 0) ([S "sad"].map reflect) :=
  first_match_wins.1 [] _ _ _ (S "i feel sad") 0 [S "sad"] rfl
    (by decide) (by decide)

/-- C5: every input line matching `i feel (.*)` case-insensitively with
non-empty remainder `X` (a line: no newline in it) is answered by one of
exactly three replies: rule 1's templates with `reflect X` substituted for
the placeholder. -/
theorem i_feel_replies :
    ∀ (s : List Char) (n : Nat) (X : List Char),
      lowStr s = S "i feel " ++ X → X ≠ [] → (∀ c ∈ X, c ≠ '\n') →
      ∃ r, respond s n = some r ∧
        r ∈ [S "Why do you feel " ++ reflect X ++ S "?",
             S "How long have you felt " ++ reflect X ++ S "?",
             S "Do you think feeling " ++ reflect X ++ S " is normal?"] := by
  intro s n X hX hne hnl
  have hdropLow : lowStr (s.drop 7) = X := by
    have h1 : lowStr (s.drop 7) = (lowStr s).drop 7 := List.map_drop lowerChar s 7
    rw [h1, hX]
    exact List.drop_left (S "i feel ") X
  have hnl' : ∀ c ∈ s.drop 7, (c != '\n') = true := by
    intro c hc
    have hmem : lowerChar c ∈ lowStr (s.drop 7) := List.mem_map_of_mem lowerChar hc
    rw [hdropLow] at hmem
    rw [bne_iff_ne]
    intro heq
    subst heq
    rw [show lowerChar '\n' = '\n' from by decide] at hmem
    exact hnl '\n' hmem rfl
  have hm : matchPat (Pat.litStar (S "i feel ")) s = some [s.drop 7] := by
    rw [matchPat, if_pos (by rw [hX]; exact isPref_append_self _ _)]
    have h2 : (s.drop (S "i feel ").length).takeWhile (fun c => c != '\n') =
        s.drop 7 := by
      rw [show (S "i feel ").length = 7 from rfl]
      exact List.takeWhile_eq_self_iff.mpr hnl'
    rw [h2]
  have hfm : firstMatch responses s =
      some ([S "Why do you feel {}?", S "How long have you felt {}?",
             S "Do you think feeling {} is normal?"], [s.drop 7]) := by
    unfold responses
    exact firstMatch_cons_some hm
  have hrefl : reflect (s.drop 7) = reflect X := by
    rw [← hdropLow, reflect, reflect, lowStr_idem]
  rcases respond_cases3 hfm (n := n) with h | h | h
  · refine ⟨S "Why do you feel " ++ reflect X ++ S "?", ?_, by simp⟩
    rw [h, show List.map reflect [s.drop 7] = [reflect (s.drop 7)] from rfl, hrefl]
    rfl
  · refine ⟨S "How long have you felt " ++ reflect X ++ S "?", ?_, by simp⟩
    rw [h, show List.map reflect [s.drop 7] = [reflect (s.drop 7)] from rfl, hrefl]
    rfl
  · refine ⟨S "Do you think feeling " ++ reflect X ++ S " is normal?", ?_, by simp⟩
    rw [h, show List.map reflect [s.drop 7] = [reflect (s.drop 7)] from rfl, hrefl]
    rfl

theorem i_feel_replies_witness :
    ∃ r, respond (S "I feel sad") 0 = some r ∧
      r ∈ [S "Why do you feel " ++ reflect (S "sad") ++ S "?",
           S "How long have you felt " ++ reflect (S "sad") ++ S "?",
           S "Do you think feeling " ++ reflect (S "sad") ++ S " is normal?"] :=
  i_feel_replies (S "I feel sad") 0 (S "sad") (by decide) (by decide) (by decide)

/-- C7: when no rule's pattern matches the input, the reply is one of the
five fixed fallback strings, returned verbatim — no placeholder substitution
and no reflection; e.g. for `"qwerty zzz"`. -/
theorem fallback_on_no_match :
    (∀ s n, (∀ pr ∈ responses, matchPat pr.1 s = none) →
      respond s n = some (choice default_responses n) ∧
      choice default_responses n ∈ default_responses) ∧
    (∀ n, ∃ r, respond (S "qwerty zzz") n = some r ∧ r ∈ default_responses) := by
  have main : ∀ s n, (∀ pr ∈ responses, matchPat pr.1 s = none) →
      respond s n = some (choice default_responses n) ∧
      choice default_responses n ∈ default_responses := by
    intro s n h
    constructor
    · unfold respond
      rw [firstMatch_eq_none h]
    · exact choice_mem _ _ (by decide)
  refine ⟨main, fun n => ?_⟩
  obtain ⟨h1, h2⟩ := main (S "qwerty zzz") n (by decide)
  exact ⟨choice default_responses n, h1, h2⟩

theorem fallback_on_no_match_witness :
    respond (S "qwerty zzz") 0 = some (choice default_responses 0) ∧
    choice default_responses 0 ∈ default_responses :=
  fallback_on_no_match.1 (S "qwerty zzz") 0 (by decide)

/-- C9: an input whose lowercased form is a sentinel (`bye`, `exit`,
`quit`, in any letter case) makes the loop break: the step reports the end
of the session and never produces a rule-based or fallback reply. -/
theorem sentinel_exits :
    ∀ s n, lowStr s ∈ sentinels →
      elizaStep s n = some Turn.exit ∧
      ∀ r, elizaStep s n ≠ some (Turn.reply r) := by
  intro s n h
  unfold elizaStep
  rw [if_pos h]
  exact ⟨rfl, fun r hc => by simp at hc⟩

theorem sentinel_exits_witness :
    elizaStep (S "BYE") 0 = some Turn.exit ∧
    ∀ r, elizaStep (S "BYE") 0 ≠ some (Turn.reply r) :=
  sentinel_exits (S "BYE") 0 (by decide)

/-- C8: totality — for every input string (including the empty string and
pure punctuation) and every random draw, `respond` succeeds: the turn is
either a rule reply or a fallback reply and no error path (missing `format`
argument, stray brace, empty template list) is reachable; consequently one
loop step always yields an outcome. -/
theorem respond_total :
    ∀ s n, ∃ r, respond s n = some r ∧
      (elizaStep s n = some Turn.exit ∨ elizaStep s n = some (Turn.reply r)) := by
  intro s n
  have hresp : ∃ r, respond s n = some r := by
    rcases hfm : firstMatch responses s with _ | ⟨phr, gs⟩
    · refine ⟨choice default_responses n, ?_⟩
      unfold respond
      rw [hfm]
    · obtain ⟨p, hmem, hm⟩ := firstMatch_mem hfm
      have hlen : gs.length = numCaptures p := matchPat_length hm
      have htab : ∀ pr ∈ responses, pr.2 ≠ [] ∧
          ∀ t ∈ pr.2, wellBraced t = true ∧ countPh t ≤ numCaptures pr.1 := by
        decide
      have hne : phr ≠ [] := (htab (p, phr) hmem).1
      obtain ⟨hwb, hcp⟩ := (htab (p, phr) hmem).2 (choice phr n) (choice_mem phr n hne)
      obtain ⟨r, hr⟩ := pyFormat_isSome (choice phr n) (gs.map reflect) hwb
        (by rw [List.length_map, hlen]; exact hcp)
      refine ⟨r, ?_⟩
      unfold respond
      rw [hfm]
      exact hr
  obtain ⟨r, hr⟩ := hresp
  refine ⟨r, hr, ?_⟩
  unfold elizaStep
  by_cases hs : lowStr s ∈ sentinels
  · left
    rw [if_pos hs]
  · right
    rw [if_neg hs, hr]
    rfl

end Eliza
